import Mathlib

/-
  Verification development for the hono-my-router repository.

  The route-resolution engine of the repository lives in:
  - `ParameterExtractor` (src/unnamed/part_002): pattern conversion,
    matching, parameter extraction and validation;
  - `RouteScanner` (src/unnamed/part_005): route classification and
    parameter-name extraction;
  - `Router` (src/src/router.ts): registration and the inline route
    classification of `addRoute`;
  - utility functions (src/src/utils.ts): `normalizePath`,
    `determineRouteType`.

  Strings are modelled as `List Char` internally (`String.data`), and the
  regex-based transformations of the source are translated into explicit
  scanning functions whose doc comments cite the regex they embed.
  Matching itself is delegated by the source to the external
  `path-to-regexp` and `hono` packages, whose code is not part of this
  repository; those parts are modelled from the spec and are marked
  `Modelled from the spec:` below.
-/

/-- Route types (src/unnamed/part_001, `RouteType`). -/
inductive RouteType
  | simple
  | singleParam
  | variableSegments
  | nested
deriving DecidableEq, Repr

/-- An extracted parameter value: `RouteParams` values are
`string | string[]` (src/unnamed/part_001, `RouteParams`). -/
inductive ParamValue
  | str (v : String)
  | seq (vs : List String)
deriving DecidableEq, Repr

/- ### normalizePath (src/src/utils.ts lines 94-99, and the identical
   private copy in src/unnamed/part_002 lines 148-153) -/

/-- Embeds `replace(/\/+/g, '/')`: collapse every run of slashes to one.
The flag records whether the previous kept character was a slash of a run
being collapsed. -/
def collapseGo : Bool → List Char → List Char
  | _, [] => []
  | prevSlash, c :: rest =>
    if c = '/' then
      if prevSlash then collapseGo true rest
      else '/' :: collapseGo true rest
    else c :: collapseGo false rest

/-- `replace(/\/+/g, '/')` on a whole string. -/
def collapseSlashes (l : List Char) : List Char :=
  collapseGo false l

/-- Embeds `replace(/\/$/, '')`: remove a single trailing slash. -/
def stripTrailingSlash (l : List Char) : List Char :=
  if l.getLast? = some '/' then l.dropLast else l

/-- Embeds `replace(/^\//, '/')`: replace a leading slash by a slash.
This is written exactly as the source regex behaves; it is an identity
(see `replaceLeadingSlash_eq_self`). -/
def replaceLeadingSlash : List Char → List Char
  | '/' :: rest => '/' :: rest
  | l => l

/-- `normalizePath` (src/src/utils.ts lines 94-99; same code in
src/unnamed/part_002 lines 148-153): collapse duplicate slashes, strip a
trailing slash, then the leading-slash replacement. -/
def normalizePath (path : String) : String :=
  String.mk (replaceLeadingSlash (stripTrailingSlash (collapseSlashes path.data)))

/- ### Pattern conversion
   (src/unnamed/part_002, `convertToPathToRegexpPattern`, lines 131-143) -/

/-- Scans for the first closing bracket: returns the run of characters
before the first `]` together with the remainder after it (the regex
fragment `([^\]]+)\]` succeeds when the run is nonempty). -/
def findClose : List Char → Option (List Char × List Char)
  | [] => none
  | c :: rest =>
    if c = ']' then some ([], rest)
    else (findClose rest).map (fun p => (c :: p.1, p.2))

/-- Embeds `replace(/\/\*$/, '/:segments(.+)')`: a trailing `/*` becomes
the reserved catch-all `:segments(.+)`. -/
def replaceTrailingStar (l : List Char) : List Char :=
  match l.reverse with
  | '*' :: '/' :: rrest => rrest.reverse ++ "/:segments(.+)".data
  | _ => l

/-- Embeds the global replace `/\[\.\.\.([^\]]+)\]/g` to `:$1(.*)`.
Fuel-structured scan; the fuel starts at the length of the list, which the
scan never exhausts because every step consumes at least one character. -/
def replaceSpreadGo : Nat → List Char → List Char
  | 0, l => l
  | _ + 1, [] => []
  | fuel + 1, '[' :: rest =>
    (match rest with
      | '.' :: '.' :: '.' :: rest2 =>
        match findClose rest2 with
        | some (name, after) =>
          if name = [] then '[' :: replaceSpreadGo fuel rest
          else ':' :: (name ++ ('(' :: '.' :: '*' :: ')' :: replaceSpreadGo fuel after))
        | none => '[' :: replaceSpreadGo fuel rest
      | _ => '[' :: replaceSpreadGo fuel rest)
  | fuel + 1, c :: rest => c :: replaceSpreadGo fuel rest

/-- The global spread-token replacement `[...name]` to `:name(.*)`. -/
def replaceSpread (l : List Char) : List Char :=
  replaceSpreadGo l.length l

/-- Embeds the global replace `/\[([^\]]+)\]/g` to `:$1` (run after the
spread replacement, exactly as in the source). -/
def replaceSingleGo : Nat → List Char → List Char
  | 0, l => l
  | _ + 1, [] => []
  | fuel + 1, '[' :: rest =>
    (match findClose rest with
      | some (name, after) =>
        if name = [] then '[' :: replaceSingleGo fuel rest
        else ':' :: (name ++ replaceSingleGo fuel after)
      | none => '[' :: replaceSingleGo fuel rest)
  | fuel + 1, c :: rest => c :: replaceSingleGo fuel rest

/-- The global single-token replacement `[name]` to `:name`. -/
def replaceSingle (l : List Char) : List Char :=
  replaceSingleGo l.length l

/-- `convertToPathToRegexpPattern` (src/unnamed/part_002 lines 131-143):
normalize, convert a trailing `/*`, convert spread tokens, convert single
tokens, in that order. It is a total function: no input is rejected. -/
def convertToPathToRegexpPattern (routePattern : String) : String :=
  String.mk (replaceSingle (replaceSpread (replaceTrailingStar (normalizePath routePattern).data)))

/- ### Route classification -/

/-- Whether `pat` occurs at the start of `l`. -/
def startsWithSeq : List Char → List Char → Bool
  | [], _ => true
  | _ :: _, [] => false
  | p :: ps, c :: cs => p = c && startsWithSeq ps cs

/-- Whether `pat` occurs anywhere inside `l`: the model of the JavaScript
`String.prototype.includes` used by the classifiers. -/
def containsSeq (pat : List Char) : List Char → Bool
  | [] => startsWithSeq pat []
  | c :: rest => startsWithSeq pat (c :: rest) || containsSeq pat rest

/-- `determineRouteType` (src/src/utils.ts lines 146-164). `hasParams` is
`includes('[')`, `hasVariableSegments` is `includes('[...')`, `paramCount`
is `(routePath.match(/\[/g) || []).length`, the count of `[` characters. -/
def determineRouteType (routePath : String) : RouteType :=
  let hasParams := routePath.data.contains '['
  let hasVariableSegments := containsSeq "[...".data routePath.data
  let paramCount := routePath.data.countP (· = '[')
  if !hasParams then .simple
  else if hasVariableSegments then .variableSegments
  else if paramCount = 1 then .singleParam
  else .nested

/-- The bracket tokens matched by the global regex `/\[[^\]]+\]/g`
(src/unnamed/part_005): the raw name runs, leftmost and non-overlapping,
with nonempty names. Fuel-structured scan as above. -/
def bracketTokensGo : Nat → List Char → List (List Char)
  | 0, _ => []
  | _ + 1, [] => []
  | fuel + 1, '[' :: rest =>
    (match findClose rest with
      | some (name, after) =>
        if name = [] then bracketTokensGo fuel rest
        else name :: bracketTokensGo fuel after
      | none => bracketTokensGo fuel rest)
  | fuel + 1, _ :: rest => bracketTokensGo fuel rest

/-- All raw bracket-token names of a route string. -/
def bracketTokens (l : List Char) : List (List Char) :=
  bracketTokensGo l.length l

/-- Embeds `replace(/^\.\.\./g, '')`: strip one leading run of three dots
(the anchor makes the global flag irrelevant). -/
def stripLeadingDots : List Char → List Char
  | '.' :: '.' :: '.' :: rest => rest
  | l => l

/-- `RouteScanner.getRouteParameters` (src/unnamed/part_005 lines 182-190,
also exposed as `extractParameters`): the names matched by
`/\[([^\]]+)\]/g`, with brackets removed and leading dots stripped. -/
def getRouteParameters (routePath : String) : List String :=
  (bracketTokens routePath.data).map (fun name => String.mk (stripLeadingDots name))

/-- `RouteScanner.determineRouteType` (src/unnamed/part_005 lines
162-177): spread check first, then a count of `/\[[^\]]+\]/g` matches. -/
def scannerDetermineRouteType (routePath : String) : RouteType :=
  if containsSeq "[...".data routePath.data then .variableSegments
  else if routePath.data.contains '[' && routePath.data.contains ']' then
    let paramCount := (bracketTokens routePath.data).length
    if paramCount = 1 then .singleParam else .nested
  else .simple

/-- The inline classification of `Router.addRoute` (src/src/router.ts
lines 422-424): `path.includes('[') ? (path.includes('[...') ?
'variableSegments' : 'singleParam') : 'simple'`. -/
def addRouteRouteType (path : String) : RouteType :=
  if path.data.contains '[' then
    (if containsSeq "[...".data path.data then .variableSegments else .singleParam)
  else .simple

/- ### The matcher
   The source builds its matcher by handing the converted pattern to the
   external `path-to-regexp` package (src/unnamed/part_002 lines 11-18 and
   104-110: `match(pattern, { decode: decodeURIComponent })`). That
   package is a dependency, not code of this repository, so the matcher is
   modelled from the spec (section 4.3) over the token grammar the
   conversion actually emits: literal segments, `:name` single-segment
   captures, and `:name(.*)` / `:name(.+)` trailing catch-alls. -/

/-- A token of a converted pattern. -/
inductive Tok
  | lit (s : List Char)
  | single (name : List Char)
  | spread (name : List Char)
deriving DecidableEq, Repr

/-- The slash-separated nonempty segments of a path or pattern. -/
def segsOf (l : List Char) : List (List Char) :=
  (l.splitOn '/').filter (· ≠ [])

/-- Parses one converted-pattern segment into a token: `:name` with a
`(.*)` or `(.+)` tail is a catch-all capture, `:name` alone is a
single-segment capture, anything else is a literal. -/
def parseTok (seg : List Char) : Tok :=
  match seg with
  | ':' :: rest =>
    let name := rest.takeWhile (· ≠ '(')
    let tail := rest.dropWhile (· ≠ '(')
    if tail = "(.*)".data ∨ tail = "(.+)".data then Tok.spread name
    else Tok.single name
  | _ => Tok.lit seg

/-- The token list of a converted pattern. -/
def tokensOf (pat : List Char) : List Tok :=
  (segsOf pat).map parseTok

/-- The value of a hexadecimal digit, if any. -/
def hexVal (c : Char) : Option Nat :=
  if '0' ≤ c ∧ c ≤ '9' then some (c.toNat - '0'.toNat)
  else if 'a' ≤ c ∧ c ≤ 'f' then some (10 + c.toNat - 'a'.toNat)
  else if 'A' ≤ c ∧ c ≤ 'F' then some (10 + c.toNat - 'A'.toNat)
  else none

/-- Modelled from the spec: the `decodeURIComponent` decoding that the
source passes to the external matcher. Percent escapes are decoded
bytewise; a malformed escape is a decoding failure, which the spec makes a
non-match of the candidate rather than an exception. -/
def percentDecode : List Char → Option (List Char)
  | [] => some []
  | '%' :: rest =>
    (match rest with
      | h1 :: h2 :: rest2 =>
        match hexVal h1, hexVal h2 with
        | some a, some b => (percentDecode rest2).map (fun ds => Char.ofNat (16 * a + b) :: ds)
        | _, _ => none
      | _ => none)
  | c :: rest => (percentDecode rest).map (fun ds => c :: ds)

/-- Decodes every segment of a list, failing if any segment fails. -/
def decodeSegs : List (List Char) → Option (List (List Char))
  | [] => some []
  | s :: rest =>
    match percentDecode s, decodeSegs rest with
    | some d, some ds => some (d :: ds)
    | _, _ => none

/-- Modelled from the spec: the compiled matcher of the external
`path-to-regexp` package, over the tokens the conversion emits (spec
section 4.3). The match is anchored: every token must consume its
segments and the whole path must be consumed. A literal must equal the
decoded segment; a single capture binds one decoded segment; a catch-all
capture is only processed in final position, requires at least one
remaining segment, and binds the decoded remaining segments joined by
slashes (the raw string value the source post-processes). Bindings are
returned in token order. -/
def rawMatch : List Tok → List (List Char) → Option (List (List Char × List Char))
  | [], segs => if segs = [] then some [] else none
  | Tok.lit s :: ts, segs =>
    (match segs with
      | [] => none
      | seg :: rest =>
        match percentDecode seg with
        | none => none
        | some d => if d = s then rawMatch ts rest else none)
  | Tok.single n :: ts, segs =>
    (match segs with
      | [] => none
      | seg :: rest =>
        match percentDecode seg with
        | none => none
        | some d => (rawMatch ts rest).map (fun ps => (n, d) :: ps))
  | Tok.spread n :: ts, segs =>
    if ts = [] then
      (match segs with
        | [] => none
        | _ :: _ =>
          match decodeSegs segs with
          | none => none
          | some ds => some [(n, List.intercalate ['/'] ds)])
    else none

/-- The match of a request path against a bracket-notation route pattern,
as the source performs it: convert the pattern, then run the matcher
(src/unnamed/part_002 lines 12-14 and 105-107). -/
def matchRoute (urlPath routePattern : String) : Option (List (List Char × List Char)) :=
  rawMatch (tokensOf (convertToPathToRegexpPattern routePattern).data) (segsOf urlPath.data)

/-- `ParameterExtractor.matchesPattern` (src/unnamed/part_002 lines
104-110): runs the matcher and reports whether it produced a result. -/
def matchesPattern (urlPath routePattern : String) : Bool :=
  (matchRoute urlPath routePattern).isSome

/-- `ParameterExtractor.isVariableSegmentName` (src/unnamed/part_002 lines
181-183): `routePattern.includes('[...' + paramName + ']')`. -/
def isVariableSegmentName (paramName routePattern : String) : Bool :=
  containsSeq ('[' :: '.' :: '.' :: '.' :: (paramName.data ++ [']'])) routePattern.data

/-- `value.split('/').filter(Boolean)`: the post-processing the source
applies to a catch-all value (src/unnamed/part_002 line 27). -/
def splitSlashNonempty (v : List Char) : List String :=
  ((v.splitOn '/').filter (· ≠ [])).map String.mk

/-- `ParameterExtractor.extractParameters` (src/unnamed/part_002 lines
11-37): a failed match returns the empty mapping; on success each binding
whose name is a declared spread name, or is the reserved name `segments`,
is split on slashes into a sequence, and every other binding is kept as a
single string. -/
def extractParameters (urlPath routePattern : String) : List (String × ParamValue) :=
  match matchRoute urlPath routePattern with
  | none => []
  | some entries =>
    entries.map (fun kv =>
      let k := String.mk kv.1
      if isVariableSegmentName k routePattern = true ∨ k = "segments" then
        (k, ParamValue.seq (splitSlashNonempty kv.2))
      else
        (k, ParamValue.str (String.mk kv.2)))

/- ### The validator (src/unnamed/part_002 lines 42-99) -/

/-- The kind of a validation error (src/types/router.ts line 56 and
src/unnamed/part_001: `type: 'pattern' | 'validator' | 'required'`). -/
inductive ErrKind
  | required
  | pattern
  | validator
deriving DecidableEq, Repr

/-- A validation error (src/unnamed/part_001 / src/types/router.ts,
`ValidationError`). For a required error the source pushes the absent
value itself, modelled as `none`. The source wraps the parameter name in
quotes inside its message templates; the quotes are elided here. -/
structure ValidationError where
  paramName : String
  value : Option ParamValue
  message : String
  type : ErrKind
deriving DecidableEq, Repr

/-- A validation rule (src/unnamed/part_001, `ParamValidation`). The
regular expression is modelled by its test function, and a custom
validator by a function that either returns a boolean or throws
(`Except.error`). The TypeScript interface declares only `pattern`,
`validator` and `errorMessage`; the `required` flag that the spec
describes is carried here as an extra field so that statements about it
can be made, but — TypeScript objects being structural — it is exactly a
field `validateParameters` never reads. -/
structure ParamValidation where
  pattern : Option (String → Bool)
  validator : Option (ParamValue → Except String Bool)
  errorMessage : Option String
  required : Option Bool

/-- The body of the `validateParameters` loop for one entry of the
validation configuration (src/unnamed/part_002 lines 48-96): required
check with `continue`, then the regex check (applied only when the value
is a single string), then the custom validator inside a try/catch whose
catch branch pushes a `validator` error instead of propagating. -/
def checkOne (params : List (String × ParamValue)) (entry : String × ParamValidation) :
    List ValidationError :=
  let paramName := entry.1
  let validation := entry.2
  match List.lookup paramName params with
  | none =>
    [⟨paramName, none, "Parameter " ++ paramName ++ " is required", ErrKind.required⟩]
  | some value =>
    (match validation.pattern, value with
      | some rx, ParamValue.str s =>
        if rx s then []
        else [⟨paramName, some value,
              validation.errorMessage.getD
                ("Parameter " ++ paramName ++ " does not match required pattern"),
              ErrKind.pattern⟩]
      | _, _ => []) ++
    (match validation.validator with
      | some f =>
        (match f value with
          | Except.ok true => []
          | Except.ok false =>
            [⟨paramName, some value,
              validation.errorMessage.getD
                ("Parameter " ++ paramName ++ " failed custom validation"),
              ErrKind.validator⟩]
          | Except.error e =>
            [⟨paramName, some value,
              "Validation error for parameter " ++ paramName ++ ": " ++ e,
              ErrKind.validator⟩])
      | none => [])

/-- `ParameterExtractor.validateParameters` (src/unnamed/part_002 lines
42-99): every entry of the validation configuration is processed in order
and its violations are appended to the result; no entry is skipped and no
exception escapes. -/
def validateParameters (params : List (String × ParamValue))
    (validationConfig : List (String × ParamValidation)) : List ValidationError :=
  validationConfig.flatMap (checkOne params)

/- ### Registration (src/src/router.ts) -/

/-- A registered route as `Router.addRoute` pushes it (src/src/router.ts
lines 435-441): the path, the literal file path `manual`, the inline
classification, and the scanner parameter names. The handler table is
opaque to the claims and is omitted. -/
structure RegisteredRoute where
  path : String
  filePath : String
  type : RouteType
  parameters : List String
deriving DecidableEq, Repr

/-- `Router.addRoute` (src/src/router.ts lines 414-445), restricted to
its effect on `registeredRoutes`: the route is appended unconditionally —
there is no validation of the path and no rejection branch. -/
def addRoute (path : String) (routes : List RegisteredRoute) : List RegisteredRoute :=
  routes ++ [⟨path, "manual", addRouteRouteType path, getRouteParameters path⟩]

/- ### Resolution
   The source registers every route with the external `hono` framework
   (`this.app.on(method, routePath, ...)`, src/src/router.ts lines
   218-257) and dispatch happens inside that framework, whose code is not
   part of this repository. Resolution is therefore modelled from the
   spec (section 4.5). -/

/-- Modelled from the spec: the specificity bucket of section 4.5 —
exact literal routes first, then single and nested parameter routes, then
catch-all routes. -/
def specificityBucket (r : RegisteredRoute) : Nat :=
  match r.type with
  | RouteType.simple => 0
  | RouteType.singleParam => 1
  | RouteType.nested => 1
  | RouteType.variableSegments => 2

/-- Modelled from the spec: the specificity key — the bucket, then the
count of parameter tokens inside the middle bucket. -/
def specificityKey (r : RegisteredRoute) : Nat × Nat :=
  (specificityBucket r, r.parameters.length)

/-- Whether key `a` precedes-or-ties key `b` in lexicographic order. -/
def keyLe (a b : Nat × Nat) : Bool :=
  a.1 < b.1 || (a.1 = b.1 && a.2 ≤ b.2)

/-- Inserts a route after every route of smaller-or-equal key, keeping
ties in their existing order (first registered wins). -/
def insertBySpecificity (x : RegisteredRoute) : List RegisteredRoute → List RegisteredRoute
  | [] => [x]
  | y :: ys =>
    if keyLe (specificityKey y) (specificityKey x) then y :: insertBySpecificity x ys
    else x :: y :: ys

/-- Modelled from the spec: the candidate order of section 4.5 — a stable
sort of the registered routes by specificity key, so that ties resolve by
registration order. -/
def candidateOrder (routes : List RegisteredRoute) : List RegisteredRoute :=
  routes.foldl (fun acc r => insertBySpecificity r acc) []

/-- Modelled from the spec: resolution of a request path — try the
candidates in specificity order and return the first whose pattern
matches (section 4.5); `none` is the definitive no-route signal. -/
def resolve (routes : List RegisteredRoute) (path : String) : Option RegisteredRoute :=
  (candidateOrder routes).find? (fun r => matchesPattern path r.path)

/- ### Helper lemmas -/

/-- No two adjacent slashes occur in the list. -/
def noDS : List Char → Bool
  | [] => true
  | [_] => true
  | a :: b :: rest => !(a = '/' && b = '/') && noDS (b :: rest)

/-- Whether a token is not a catch-all capture. -/
def spreadFreeTok : Tok → Bool
  | Tok.spread _ => false
  | _ => true

/-- Whether a token is a literal. -/
def isLitTok : Tok → Bool
  | Tok.lit _ => true
  | _ => false

theorem replaceLeadingSlash_eq_self (l : List Char) : replaceLeadingSlash l = l := by
  unfold replaceLeadingSlash
  split
  · rfl
  · rfl

theorem collapseGo_true_head (l : List Char) : (collapseGo true l).head? ≠ some '/' := by
  induction l with
  | nil => simp [collapseGo]
  | cons c rest ih =>
    by_cases hc : c = '/'
    · subst hc; simpa [collapseGo] using ih
    · simp [collapseGo, hc]

theorem noDS_collapseGo (l : List Char) : ∀ b, noDS (collapseGo b l) = true := by
  induction l with
  | nil => intro b; simp [collapseGo, noDS]
  | cons c rest ih =>
    intro b
    by_cases hc : c = '/'
    · subst hc
      cases b with
      | true => simpa [collapseGo] using ih true
      | false =>
        simp only [collapseGo, if_pos rfl]
        rcases htail : collapseGo true rest with _ | ⟨y, t⟩
        · simp [noDS]
        · have hy : y ≠ '/' := by
            have := collapseGo_true_head rest
            rw [htail] at this
            simp at this
            exact this
          have hn : noDS (y :: t) = true := by
            have := ih true
            rwa [htail] at this
          simp [noDS, hy, hn]
    · simp only [collapseGo, if_neg hc]
      rcases htail : collapseGo false rest with _ | ⟨y, t⟩
      · simp [noDS]
      · have hn : noDS (y :: t) = true := by
          have := ih false
          rwa [htail] at this
        simp [noDS, hc, hn]

theorem noDS_collapseSlashes (l : List Char) : noDS (collapseSlashes l) = true :=
  noDS_collapseGo l false

theorem noDS_dropLast (l : List Char) (h : noDS l = true) : noDS l.dropLast = true := by
  induction l with
  | nil => simpa using h
  | cons a l ih =>
    cases l with
    | nil => simp [noDS]
    | cons b rest =>
      rw [List.dropLast_cons₂]
      have hab : (!(a = '/' && b = '/')) = true := by
        have := h
        simp only [noDS, Bool.and_eq_true] at this
        exact this.1
      have hbl : noDS (b :: rest) = true := by
        have := h
        simp only [noDS, Bool.and_eq_true] at this
        exact this.2
      have hdrop := ih hbl
      cases rest with
      | nil => simp [noDS]
      | cons r rs =>
        rw [List.dropLast_cons₂] at hdrop ⊢
        simp only [noDS, Bool.and_eq_true]
        exact ⟨hab, hdrop⟩

theorem getLast?_dropLast_ne_slash (l : List Char) (hn : noDS l = true)
    (hl : l.getLast? = some '/') : l.dropLast.getLast? ≠ some '/' := by
  induction l with
  | nil => simp at hl
  | cons a l ih =>
    cases l with
    | nil =>
      simp
    | cons b rest =>
      rw [List.dropLast_cons₂]
      have hab : (!(a = '/' && b = '/')) = true := by
        have := hn
        simp only [noDS, Bool.and_eq_true] at this
        exact this.1
      have hbl : noDS (b :: rest) = true := by
        have := hn
        simp only [noDS, Bool.and_eq_true] at this
        exact this.2
      have hlast : (b :: rest).getLast? = some '/' := by
        rw [List.getLast?_cons_cons] at hl
        exact hl
      cases rest with
      | nil =>
        have hb : b = '/' := by simpa using hlast
        subst hb
        have ha : ¬(a = '/') := by simpa using hab
        simpa using ha
      | cons r rs =>
        have := ih hbl hlast
        rw [List.dropLast_cons₂] at this ⊢
        rw [List.getLast?_cons_cons]
        exact this

theorem stripTrailingSlash_getLast (l : List Char) (hn : noDS l = true) :
    (stripTrailingSlash l).getLast? ≠ some '/' := by
  unfold stripTrailingSlash
  by_cases h : l.getLast? = some '/'
  · rw [if_pos h]
    exact getLast?_dropLast_ne_slash l hn h
  · rw [if_neg h]
    exact h

theorem dropLast_head (l : List Char) : l.dropLast = [] ∨ l.dropLast.head? = l.head? := by
  cases l with
  | nil => left; rfl
  | cons a l =>
    cases l with
    | nil => left; rfl
    | cons b rest => right; rw [List.dropLast_cons₂]; rfl


theorem rawMatch_length (toks : List Tok) :
    ∀ (segs : List (List Char)) (b : List (List Char × List Char)),
      toks.all spreadFreeTok = true → rawMatch toks segs = some b →
      segs.length = toks.length := by
  induction toks with
  | nil =>
    intro segs b _ hm
    cases segs with
    | nil => rfl
    | cons s rest => simp [rawMatch] at hm
  | cons t ts ih =>
    intro segs b hall hm
    have hallt : spreadFreeTok t = true ∧ ts.all spreadFreeTok = true := by
      simpa [List.all_cons] using hall
    cases t with
    | lit s =>
      cases segs with
      | nil => simp [rawMatch] at hm
      | cons seg rest =>
        simp only [rawMatch] at hm
        rcases hd : percentDecode seg with _ | d
        · rw [hd] at hm; simp at hm
        · rw [hd] at hm
          dsimp only at hm
          by_cases hds : d = s
          · rw [if_pos hds] at hm
            simpa using congrArg Nat.succ (ih rest b hallt.2 hm)
          · rw [if_neg hds] at hm; simp at hm
    | single n =>
      cases segs with
      | nil => simp [rawMatch] at hm
      | cons seg rest =>
        simp only [rawMatch] at hm
        rcases hd : percentDecode seg with _ | d
        · rw [hd] at hm; simp at hm
        · rw [hd] at hm
          dsimp only at hm
          rcases hrec : rawMatch ts rest with _ | b2
          · rw [hrec] at hm; simp at hm
          · simpa using congrArg Nat.succ (ih rest b2 hallt.2 hrec)
    | spread n =>
      simp [spreadFreeTok] at hallt

theorem rawMatch_litOnly (toks : List Tok) :
    ∀ (segs : List (List Char)) (b : List (List Char × List Char)),
      toks.all isLitTok = true → rawMatch toks segs = some b → b = [] := by
  induction toks with
  | nil =>
    intro segs b _ hm
    cases segs with
    | nil => simpa [rawMatch] using hm.symm
    | cons s rest => simp [rawMatch] at hm
  | cons t ts ih =>
    intro segs b hall hm
    have hallt : isLitTok t = true ∧ ts.all isLitTok = true := by
      simpa [List.all_cons] using hall
    cases t with
    | lit s =>
      cases segs with
      | nil => simp [rawMatch] at hm
      | cons seg rest =>
        simp only [rawMatch] at hm
        rcases hd : percentDecode seg with _ | d
        · rw [hd] at hm; simp at hm
        · rw [hd] at hm
          dsimp only at hm
          by_cases hds : d = s
          · rw [if_pos hds] at hm
            exact ih rest b hallt.2 hm
          · rw [if_neg hds] at hm; simp at hm
    | single n => simp [isLitTok] at hallt
    | spread n => simp [isLitTok] at hallt

/- ### Claims -/

/-- C1: the spec says every classifying code path agrees with the pure
token mapping (nested for two or more single tokens without a spread).
The two `determineRouteType` implementations do, but the inline
classification of `Router.addRoute` never produces `nested`: on
`/api/[a]/[b]` it yields `singleParam` where the mapping and the other
two classifiers yield `nested` — the code contradicts its own classifier
at this input. -/
theorem C1_addRoute_classification_divergence :
    determineRouteType "/api/[a]/[b]" = RouteType.nested ∧
    scannerDetermineRouteType "/api/[a]/[b]" = RouteType.nested ∧
    addRouteRouteType "/api/[a]/[b]" = RouteType.singleParam := by
  exact ⟨by decide, by decide, by decide⟩

/-- C2 counterexample: a pattern with a non-terminal spread token is not
rejected — `addRoute` registers it and the conversion returns an
ordinary pattern string; no MalformedPattern error exists anywhere in the
registration path. -/
theorem C2_counterexample :
    addRoute "/a/[...x]/b" [] =
      [⟨"/a/[...x]/b", "manual", RouteType.variableSegments, ["x"]⟩] ∧
    convertToPathToRegexpPattern "/a/[...x]/b" = "/a/:x(.*)/b" := by
  exact ⟨by decide, by decide⟩

/-- C2 amended: no malformedness checking exists. Registration appends
the route unconditionally for every path, and the pattern conversion is a
total function that keeps an unterminated bracket as literal text,
converts duplicate names into duplicate capture tokens, and converts a
non-terminal spread into a mid-pattern catch-all token. -/
theorem C2_amended_no_pattern_rejection :
    (∀ (p : String) (rs : List RegisteredRoute),
        (addRoute p rs).length = rs.length + 1 ∧
        (⟨p, "manual", addRouteRouteType p, getRouteParameters p⟩ : RegisteredRoute) ∈
          addRoute p rs) ∧
    convertToPathToRegexpPattern "/a/[id" = "/a/[id" ∧
    convertToPathToRegexpPattern "/a/[id]/[id]" = "/a/:id/:id" ∧
    convertToPathToRegexpPattern "/a/[...x]/b2" = "/a/:x(.*)/b2" := by
  refine ⟨fun p rs => ⟨by simp [addRoute], ?_⟩, by decide, by decide, by decide⟩
  simp [addRoute]

/-- C3: matching `/api/products/a/b/c` against the compiled
`/api/products/[...segments]` binds `segments` to the ordered sequence
`["a", "b", "c"]`, and matching `/api/products` is a non-match: the
catch-all requires at least one remaining segment. -/
theorem C3_spread_binding_and_nonmatch :
    extractParameters "/api/products/a/b/c" "/api/products/[...segments]" =
      [("segments", ParamValue.seq ["a", "b", "c"])] ∧
    matchesPattern "/api/products" "/api/products/[...segments]" = false := by
  exact ⟨by decide, by decide⟩

/-- C4 counterexample: a single (non-spread) parameter that happens to be
named `segments` is split into a sequence, because the extraction keys the
reserved catch-all name by name alone — so a single parameter value is
not always a single string. -/
theorem C4_counterexample :
    extractParameters "/api/foo" "/api/[segments]" =
      [("segments", ParamValue.seq ["foo"])] := by
  decide

/-- C4 amended: every binding whose name is declared as a spread in the
pattern, or is the reserved name `segments`, is an ordered sequence; every
other binding is a single string. -/
theorem C4_amended_value_shapes :
    ∀ (urlPath routePattern k : String) (v : ParamValue),
      (k, v) ∈ extractParameters urlPath routePattern →
      ((isVariableSegmentName k routePattern = true ∨ k = "segments") →
        ∃ vs, v = ParamValue.seq vs) ∧
      (isVariableSegmentName k routePattern = false ∧ k ≠ "segments" →
        ∃ s, v = ParamValue.str s) := by
  intro u p k v hmem
  unfold extractParameters at hmem
  rcases hm : matchRoute u p with _ | entries
  · rw [hm] at hmem; simp at hmem
  · rw [hm] at hmem
    dsimp only at hmem
    rcases List.mem_map.mp hmem with ⟨kv, _, heq⟩
    by_cases hc : isVariableSegmentName (String.mk kv.1) p = true ∨ String.mk kv.1 = "segments"
    · rw [if_pos hc] at heq
      have hk : k = String.mk kv.1 := by
        have := congrArg Prod.fst heq
        simpa using this.symm
      have hv : v = ParamValue.seq (splitSlashNonempty kv.2) := by
        have := congrArg Prod.snd heq
        simpa using this.symm
      refine ⟨fun _ => ⟨_, hv⟩, fun hneg => ?_⟩
      rw [hk] at hneg
      rcases hc with hc | hc
      · rw [hneg.1] at hc; cases hc
      · exact absurd hc hneg.2
    · rw [if_neg hc] at heq
      have hk : k = String.mk kv.1 := by
        have := congrArg Prod.fst heq
        simpa using this.symm
      have hv : v = ParamValue.str (String.mk kv.2) := by
        have := congrArg Prod.snd heq
        simpa using this.symm
      refine ⟨fun hpos => ?_, fun _ => ⟨_, hv⟩⟩
      rw [hk] at hpos
      exact absurd hpos hc

/-- C4 amended witness at a concrete spread pattern and path. -/
theorem C4_amended_value_shapes_witness :
    ((isVariableSegmentName "segments" "/api/products/[...segments]" = true ∨
        ("segments" : String) = "segments") →
      ∃ vs, ParamValue.seq ["a", "b"] = ParamValue.seq vs) ∧
    (isVariableSegmentName "segments" "/api/products/[...segments]" = false ∧
        ("segments" : String) ≠ "segments" →
      ∃ s, ParamValue.seq ["a", "b"] = ParamValue.str s) :=
  C4_amended_value_shapes "/api/products/a/b" "/api/products/[...segments]"
    "segments" (ParamValue.seq ["a", "b"]) (by decide)

/-- C5 counterexample: the validator has no notion of an optional
parameter. Even when the rule object carries `required: false` (a field
the TypeScript interface does not declare and `validateParameters` never
reads), an absent value still emits a `required` ValidationError. -/
theorem C5_counterexample :
    validateParameters [] [("id", ⟨none, none, none, some false⟩)] =
      [⟨"id", none, "Parameter id is required", ErrKind.required⟩] := by
  rfl

/-- C5 amended: whatever the rule declares, a parameter whose value is
absent always contributes exactly one `required` ValidationError and its
pattern and predicate checks are skipped; there is no way to mark a
parameter optional. -/
theorem C5_amended_absent_always_required :
    ∀ (params : List (String × ParamValue))
      (validationConfig : List (String × ParamValidation))
      (name : String) (rule : ParamValidation),
      (name, rule) ∈ validationConfig →
      List.lookup name params = none →
      checkOne params (name, rule) =
        [⟨name, none, "Parameter " ++ name ++ " is required", ErrKind.required⟩] ∧
      (⟨name, none, "Parameter " ++ name ++ " is required", ErrKind.required⟩ :
          ValidationError) ∈ validateParameters params validationConfig := by
  intro params config name rule hmem hlook
  have hone : checkOne params (name, rule) =
      [⟨name, none, "Parameter " ++ name ++ " is required", ErrKind.required⟩] := by
    unfold checkOne
    dsimp only
    rw [hlook]
  refine ⟨hone, ?_⟩
  unfold validateParameters
  refine List.mem_flatMap.mpr ⟨(name, rule), hmem, ?_⟩
  rw [hone]
  exact List.mem_singleton.mpr rfl

/-- C5 amended witness: a rule carrying `required: false` with an absent
value still produces the `required` error. -/
theorem C5_amended_absent_always_required_witness :
    checkOne [] ("id", (⟨none, none, none, some false⟩ : ParamValidation)) =
      [⟨"id", none, "Parameter " ++ "id" ++ " is required", ErrKind.required⟩] ∧
    (⟨"id", none, "Parameter " ++ "id" ++ " is required", ErrKind.required⟩ :
        ValidationError) ∈
      validateParameters [] [("id", ⟨none, none, none, some false⟩)] :=
  C5_amended_absent_always_required [] [("id", ⟨none, none, none, some false⟩)]
    "id" ⟨none, none, none, some false⟩ (List.mem_singleton.mpr rfl) rfl

/-- C6: validation is not short-circuited across parameters — every
violation any configured entry produces appears in the returned list —
and a custom predicate that returns false, or that throws during
evaluation, each contribute a `validator` ValidationError; the function
is total, so no exception ever propagates. -/
theorem C6_validation_collects_all :
    (∀ (params : List (String × ParamValue))
        (config : List (String × ParamValidation))
        (entry : String × ParamValidation) (err : ValidationError),
        entry ∈ config → err ∈ checkOne params entry →
        err ∈ validateParameters params config) ∧
    (∀ (params : List (String × ParamValue))
        (config : List (String × ParamValidation))
        (name : String) (rule : ParamValidation) (v : ParamValue)
        (f : ParamValue → Except String Bool),
        (name, rule) ∈ config → List.lookup name params = some v →
        rule.validator = some f → f v = Except.ok false →
        (⟨name, some v,
            rule.errorMessage.getD ("Parameter " ++ name ++ " failed custom validation"),
            ErrKind.validator⟩ : ValidationError) ∈
          validateParameters params config) ∧
    (∀ (params : List (String × ParamValue))
        (config : List (String × ParamValidation))
        (name : String) (rule : ParamValidation) (v : ParamValue)
        (f : ParamValue → Except String Bool) (e : String),
        (name, rule) ∈ config → List.lookup name params = some v →
        rule.validator = some f → f v = Except.error e →
        (⟨name, some v, "Validation error for parameter " ++ name ++ ": " ++ e,
            ErrKind.validator⟩ : ValidationError) ∈
          validateParameters params config) := by
  have hlift : ∀ (params : List (String × ParamValue))
      (config : List (String × ParamValidation))
      (entry : String × ParamValidation) (err : ValidationError),
      entry ∈ config → err ∈ checkOne params entry →
      err ∈ validateParameters params config := by
    intro params config entry err hmem herr
    unfold validateParameters
    exact List.mem_flatMap.mpr ⟨entry, hmem, herr⟩
  refine ⟨hlift, ?_, ?_⟩
  · intro params config name rule v f hmem hlook hval hres
    refine hlift params config (name, rule) _ hmem ?_
    unfold checkOne
    dsimp only
    rw [hlook, hval]
    dsimp only
    rw [hres]
    exact List.mem_append_right _ (List.mem_singleton.mpr rfl)
  · intro params config name rule v f e hmem hlook hval hres
    refine hlift params config (name, rule) _ hmem ?_
    unfold checkOne
    dsimp only
    rw [hlook, hval]
    dsimp only
    rw [hres]
    exact List.mem_append_right _ (List.mem_singleton.mpr rfl)

/-- C6 witness: a two-entry configuration in which the first predicate
returns false and the second predicate throws; both violations are in the
returned list, and the first entry contributes through the lifting of the
per-entry check. -/
theorem C6_validation_collects_all_witness :
    (⟨"a", some (ParamValue.str "1"),
        (none : Option String).getD ("Parameter " ++ "a" ++ " failed custom validation"),
        ErrKind.validator⟩ : ValidationError) ∈
      validateParameters [("a", ParamValue.str "1"), ("b", ParamValue.str "2")]
        [("a", ⟨none, some (fun _ => Except.ok false), none, none⟩),
         ("b", ⟨none, some (fun _ => Except.error "boom"), none, none⟩)] ∧
    (⟨"b", some (ParamValue.str "2"),
        "Validation error for parameter " ++ "b" ++ ": " ++ "boom",
        ErrKind.validator⟩ : ValidationError) ∈
      validateParameters [("a", ParamValue.str "1"), ("b", ParamValue.str "2")]
        [("a", ⟨none, some (fun _ => Except.ok false), none, none⟩),
         ("b", ⟨none, some (fun _ => Except.error "boom"), none, none⟩)] :=
  ⟨C6_validation_collects_all.2.1
      [("a", ParamValue.str "1"), ("b", ParamValue.str "2")]
      [("a", ⟨none, some (fun _ => Except.ok false), none, none⟩),
       ("b", ⟨none, some (fun _ => Except.error "boom"), none, none⟩)]
      "a" ⟨none, some (fun _ => Except.ok false), none, none⟩
      (ParamValue.str "1") (fun _ => Except.ok false)
      (List.mem_cons_self _ _) rfl rfl rfl,
    C6_validation_collects_all.2.2
      [("a", ParamValue.str "1"), ("b", ParamValue.str "2")]
      [("a", ⟨none, some (fun _ => Except.ok false), none, none⟩),
       ("b", ⟨none, some (fun _ => Except.error "boom"), none, none⟩)]
      "b" ⟨none, some (fun _ => Except.error "boom"), none, none⟩
      (ParamValue.str "2") (fun _ => Except.error "boom") "boom"
      (List.mem_cons_of_mem _ (List.mem_cons_self _ _)) rfl rfl rfl⟩

/-- C7 counterexample: normalization does not guarantee a leading
separator. The final `replace(/^\//, '/')` is an identity, so `api`
stays `api` (no leading slash), and the root path `/` normalizes to the
empty string. -/
theorem C7_counterexample :
    normalizePath "api" = "api" ∧
    (normalizePath "api").data.head? ≠ some '/' ∧
    normalizePath "/" = "" := by
  exact ⟨by decide, by decide, by decide⟩

/-- C7 amended: normalization collapses every run of separators and
strips the trailing separator — the result never contains two adjacent
slashes and never ends with a slash — and it preserves an existing
leading slash (unless the whole result is empty) but never creates one. -/
theorem C7_amended_normalization :
    ∀ s : String,
      noDS (normalizePath s).data = true ∧
      (normalizePath s).data.getLast? ≠ some '/' ∧
      (s.data.head? = some '/' →
        (normalizePath s).data = [] ∨ (normalizePath s).data.head? = some '/') := by
  intro s
  have hdata : (normalizePath s).data =
      stripTrailingSlash (collapseSlashes s.data) := by
    unfold normalizePath
    rw [replaceLeadingSlash_eq_self]
  have hnc : noDS (collapseSlashes s.data) = true := noDS_collapseSlashes s.data
  refine ⟨?_, ?_, ?_⟩
  · rw [hdata]
    unfold stripTrailingSlash
    by_cases h : (collapseSlashes s.data).getLast? = some '/'
    · rw [if_pos h]
      exact noDS_dropLast _ hnc
    · rw [if_neg h]
      exact hnc
  · rw [hdata]
    exact stripTrailingSlash_getLast _ hnc
  · intro hhead
    rw [hdata]
    have hch : (collapseSlashes s.data).head? = some '/' := by
      rcases hsd : s.data with _ | ⟨c, rest⟩
      · rw [hsd] at hhead; simp at hhead
      · rw [hsd] at hhead
        have hc : c = '/' := by simpa using hhead
        subst hc
        simp [collapseSlashes, collapseGo]
    unfold stripTrailingSlash
    by_cases h : (collapseSlashes s.data).getLast? = some '/'
    · rw [if_pos h]
      rcases dropLast_head (collapseSlashes s.data) with hnil | hkeep
      · left; exact hnil
      · right; rw [hkeep]; exact hch
    · rw [if_neg h]
      right; exact hch

/-- C7 amended witness at the input `/a//b/`. -/
theorem C7_amended_normalization_witness :
    noDS (normalizePath "/a//b/").data = true ∧
    (normalizePath "/a//b/").data.getLast? ≠ some '/' ∧
    ((normalizePath "/a//b/").data = [] ∨
      (normalizePath "/a//b/").data.head? = some '/') :=
  ⟨(C7_amended_normalization "/a//b/").1,
    (C7_amended_normalization "/a//b/").2.1,
    (C7_amended_normalization "/a//b/").2.2 (by decide)⟩

/-- C8: the match is anchored to the full path — for every pattern whose
compiled tokens contain no catch-all, a successful match forces the path
to have exactly as many segments as the pattern — and in particular
`/api/users/[id]` does not match `/api/users`, which lacks the required
segment. -/
theorem C8_match_anchored :
    (∀ urlPath routePattern : String,
        (tokensOf (convertToPathToRegexpPattern routePattern).data).all spreadFreeTok = true →
        matchesPattern urlPath routePattern = true →
        (segsOf urlPath.data).length =
          (tokensOf (convertToPathToRegexpPattern routePattern).data).length) ∧
    matchesPattern "/api/users" "/api/users/[id]" = false := by
  refine ⟨?_, by decide⟩
  intro u p hfree hm
  unfold matchesPattern matchRoute at hm
  rcases hraw : rawMatch (tokensOf (convertToPathToRegexpPattern p).data) (segsOf u.data)
    with _ | b
  · rw [hraw] at hm; simp at hm
  · exact rawMatch_length _ _ b hfree hraw

/-- C8 witness: the anchoring count at a matching concrete pair. -/
theorem C8_match_anchored_witness :
    (segsOf ("/api/users/42" : String).data).length =
      (tokensOf (convertToPathToRegexpPattern "/api/users/[id]").data).length :=
  C8_match_anchored.1 "/api/users/42" "/api/users/[id]" (by decide) (by decide)

/-- C9: with both `/api/users/[id]` and `/api/users/me` registered — in
either registration order — resolution of `/api/users/me` returns the
`simple` literal route, because exact literal routes precede
parameterized routes in the specificity order. -/
theorem C9_literal_beats_param :
    resolve (addRoute "/api/users/me" (addRoute "/api/users/[id]" [])) "/api/users/me" =
      some ⟨"/api/users/me", "manual", RouteType.simple, []⟩ ∧
    resolve (addRoute "/api/users/[id]" (addRoute "/api/users/me" [])) "/api/users/me" =
      some ⟨"/api/users/me", "manual", RouteType.simple, []⟩ := by
  exact ⟨by decide, by decide⟩

/-- C10: `extractParameters` returns the empty mapping both on a failed
match and on a successful match of a parameterless pattern, so the two
are indistinguishable from its result; `matchesPattern` tells them
apart. -/
theorem C10_empty_mapping_ambiguity :
    (∀ urlPath routePattern : String,
        matchesPattern urlPath routePattern = false →
        extractParameters urlPath routePattern = []) ∧
    (∀ urlPath routePattern : String,
        (tokensOf (convertToPathToRegexpPattern routePattern).data).all isLitTok = true →
        extractParameters urlPath routePattern = []) ∧
    (extractParameters "/nope" "/api" = [] ∧ extractParameters "/api" "/api" = [] ∧
      matchesPattern "/nope" "/api" = false ∧ matchesPattern "/api" "/api" = true) := by
  refine ⟨?_, ?_, by decide, by decide, by decide, by decide⟩
  · intro u p hm
    unfold extractParameters
    unfold matchesPattern at hm
    rcases hraw : matchRoute u p with _ | entries
    · rfl
    · rw [hraw] at hm; simp at hm
  · intro u p hlit
    unfold extractParameters
    rcases hraw : matchRoute u p with _ | entries
    · rfl
    · have : entries = [] := rawMatch_litOnly _ _ entries hlit hraw
      rw [this]
      rfl

/-- C10 witness: both general parts applied at concrete inputs. -/
theorem C10_empty_mapping_ambiguity_witness :
    extractParameters "/other" "/api/users/[id]" = [] ∧
    extractParameters "/api/users" "/api/users" = [] :=
  ⟨C10_empty_mapping_ambiguity.1 "/other" "/api/users/[id]" (by decide),
    C10_empty_mapping_ambiguity.2.1 "/api/users" "/api/users" (by decide)⟩
